import Mathlib

/-!
Verification development for the WordHoard text-to-speech dispatch layer.

The TypeScript sources are shallowly embedded below.  JavaScript strings are
modelled as lists of Unicode scalar values (`Str := List Char`); JS `Map`
objects are modelled as functions into `Option`; the asynchronous parts of
the cloud playback module are modelled as an explicit state machine whose
actions are the synchronous blocks between `await` points and the DOM event
callbacks.  Case mapping (`toLowerCase`) is modelled on the ASCII range,
which covers every constant the sources compare against.
-/

namespace WordHoard

/-- JS strings as lists of Unicode scalars. -/
abbrev Str := List Char

/-- Coerce a Lean string literal to the `Str` model. -/
def str (s : String) : Str := s.toList

/-- Whitespace recognised by JS `String.prototype.trim` (the characters that
matter for this code base: ASCII blanks, NBSP, ideographic space, BOM). -/
def wsChar (c : Char) : Bool :=
  c.toNat = 0x20 || c.toNat = 0x09 || c.toNat = 0x0a || c.toNat = 0x0d ||
  c.toNat = 0x0b || c.toNat = 0x0c || c.toNat = 0xa0 ||
  c.toNat = 0x3000 || c.toNat = 0xfeff

/-- JS `s.trim()`: drop leading and trailing whitespace. -/
def trimStr (s : Str) : Str :=
  ((s.dropWhile wsChar).reverse.dropWhile wsChar).reverse

/-- JS `s.toLowerCase()`, restricted to ASCII case mapping. -/
def lowerStr (s : Str) : Str := s.map Char.toLower

/-- JS `s.startsWith(p)`. -/
def startsW (p s : Str) : Bool := p.isPrefixOf s

/-- JS `s.includes(sub)`. -/
def hasSub (hay needle : Str) : Bool := decide (needle <:+: hay)

/-- Membership in the character class of `RE_JA` in `src/app/utils/tts.ts`
(`/[぀-ヿ㐀-䶿一-鿿]/`), which is also the class of
`part_005`'s `/[぀-ヿ㐀-䶿一-鿿]/` (same three scalar ranges). -/
def isJaChar (c : Char) : Bool :=
  (0x3040 ≤ c.toNat && c.toNat ≤ 0x30ff) ||
  (0x3400 ≤ c.toNat && c.toNat ≤ 0x4dbf) ||
  (0x4e00 ≤ c.toNat && c.toNat ≤ 0x9fff)

/-- Membership in `RE_LATIN` (`/[A-Za-z]/`). -/
def isLatinChar (c : Char) : Bool :=
  (0x41 ≤ c.toNat && c.toNat ≤ 0x5a) || (0x61 ≤ c.toNat && c.toNat ≤ 0x7a)

/-- `guessLang` of the wired module `src/app/utils/tts.ts` (lines 13-25).
`preferJa` models `opts?.preferJa` (absent ≡ `false`). -/
def guessLangWired (text : Str) (preferJa : Bool) : Str :=
  let t := trimStr text
  if t = [] then str "en-US"
  else if preferJa then str "ja-JP"
  else if t.any isJaChar then str "ja-JP"
  else if t.any isLatinChar then str "en-US"
  else str "en-US"

/-- Result type of `guessLang` in `src/unnamed/part_005` (lines 7-14). -/
inductive Lang05
  | ja
  | en
  | other
deriving DecidableEq, Repr

/-- `guessLang` of `src/unnamed/part_005` (lines 7-14): no trim, the
`preferJa` option is ignored (`_opts`), and the fallback bucket is `other`. -/
def guessLang05 (text : Str) : Lang05 :=
  if text.any isJaChar then .ja
  else if text.any isLatinChar then .en
  else .other

/- ### Voice descriptors and the voice selectors -/

/-- A `SpeechSynthesisVoice` as observed by this code: name, language tag,
`voiceURI` and the default flag (the sources read them `??`-coalesced, so
`undefined` is observationally the empty string / `false`). -/
structure Voice where
  name : Str
  lang : Str
  voiceURI : Str
  isDef : Bool
deriving DecidableEq, Repr

/-- `normLang` of `src/app/utils/tts.ts` (line 27): lowercase the tag. -/
def normLang (lang : Str) : Str := lowerStr lang

/-- The quality score of `pickVoice` in `src/app/utils/tts.ts` (lines 64-82). -/
def scoreWired (v : Voice) : Int :=
  let name := lowerStr v.name
  (if hasSub name (str "natural") then 50 else 0) +
  (if hasSub name (str "neural") then 45 else 0) +
  (if hasSub name (str "google") then 35 else 0) +
  (if hasSub name (str "kyoko") then 30 else 0) +
  (if hasSub name (str "otoya") then 30 else 0) +
  (if hasSub name (str "nanami") then 30 else 0) +
  (if hasSub name (str "microsoft") then 20 else 0) +
  (if hasSub name (str "compact") then -10 else 0) +
  (if hasSub name (str "offline") then -5 else 0) +
  (if v.isDef then 5 else 0)

/-- One step of a stable descending insertion sort: the new element is placed
after every element of at least equal score.  This models the stable JS
`Array.prototype.sort` with comparator `(a, b) => score(b) - score(a)`. -/
def insDesc (f : Voice → Int) (x : Voice) : List Voice → List Voice
  | [] => [x]
  | y :: ys => if f y < f x then x :: y :: ys else y :: insDesc f x ys

/-- Left fold of `insDesc` over the input list. -/
def sortDescAux (f : Voice → Int) : List Voice → List Voice → List Voice
  | [], acc => acc
  | x :: xs, acc => sortDescAux f xs (insDesc f x acc)

/-- Stable sort by descending score. -/
def sortDesc (f : Voice → Int) (l : List Voice) : List Voice := sortDescAux f l []

/-- Sortedness predicate: scores are non-increasing along the list. -/
def DescSorted (f : Voice → Int) (l : List Voice) : Prop :=
  l.Pairwise (fun a b => f b ≤ f a)

/-- Language pool of the wired `pickVoice` (lines 59-61): filter to voices
whose normalised tag starts with the wanted prefix; if that filter is empty,
fall back to the full voice list. -/
def poolWired (voices : List Voice) (lang : Str) : List Voice :=
  let want := normLang lang
  let sameLang := voices.filter (fun v => startsW want (normLang v.lang))
  if sameLang = [] then voices else sameLang

/-- `pickVoice` of `src/app/utils/tts.ts` (lines 55-85). -/
def pickVoiceWired (voices : List Voice) (lang : Str) : Option Voice :=
  if voices = [] then none
  else (sortDesc scoreWired (poolWired voices lang)).head?

/-- The quality score of `pickVoice` in `src/unnamed/part_001` (lines 33-41). -/
def score001 (v : Voice) : Int :=
  let name := lowerStr v.name
  (if hasSub name (str "otoya") then 1000 else 0) +
  (if hasSub name (str "拡張") || hasSub name (str "enhanced") ||
      hasSub name (str "premium") then 200 else 0) +
  (if hasSub name (str "online") || hasSub name (str "neural") then 100 else 0)

/-- JS `s.replace(head, dash)` for the single characters used by the sources:
replace the first underscore with a dash. -/
def replUnd : Str → Str
  | [] => []
  | c :: cs => if c = '_' then '-' :: cs else c :: replUnd cs

/-- Language pool of `pickVoice` in `src/unnamed/part_001` (lines 28-29). -/
def pool001 (voices : List Voice) (lang : Str) : List Voice :=
  let targetLang := replUnd (lowerStr lang)
  voices.filter (fun v => startsW targetLang (replUnd (lowerStr v.lang)))

/-- `pickVoice` of `src/unnamed/part_001` (lines 24-44): same prefix filter
but NO fallback to the full voice list when the filtered pool is empty. -/
def pickVoice001 (voices : List Voice) (lang : Str) : Option Voice :=
  if voices = [] then none
  else if pool001 voices lang = [] then none
  else (sortDesc score001 (pool001 voices lang)).head?

/- ### The per-language voice cache (`src/app/utils/tts.ts`, lines 31-53) -/

/-- A `VOICE_CACHE` entry: selected voice identity (name + tag + voiceURI). -/
structure CachedV where
  name : Str
  lang : Str
  voiceURI : Str
deriving DecidableEq, Repr

/-- The `VOICE_CACHE` map, keyed by `normLang`. -/
abbrev VCache := Str → Option CachedV

/-- `getCachedVoice` (lines 42-49): re-resolve the cached identity against
the current voice list, matching name + tag first, then voiceURI + tag. -/
def getCachedVoice (cache : VCache) (voices : List Voice) (lang : Str) :
    Option Voice :=
  match cache (normLang lang) with
  | none => none
  | some cached =>
    (voices.find? (fun v => v.name == cached.name && v.lang == cached.lang)).orElse
      (fun _ => voices.find? (fun v => v.voiceURI == cached.voiceURI && v.lang == cached.lang))

/-- `cacheVoice` (lines 51-53). -/
def cacheVoice (cache : VCache) (lang : Str) (v : Voice) : VCache :=
  fun k => if k = normLang lang then some ⟨v.name, v.lang, v.voiceURI⟩ else cache k

/-- The voice-locking step of `speakCore` (lines 172-178):
`getCachedVoice(lang) ?? pickVoice(lang)`, caching the winner. -/
def selectVoice (cache : VCache) (voices : List Voice) (lang : Str) :
    Option Voice × VCache :=
  match (getCachedVoice cache voices lang).orElse (fun _ => pickVoiceWired voices lang) with
  | some v => (some v, cacheVoice cache lang v)
  | none => (none, cache)

/- ### The dispatcher variants -/

/-- An utterance as configured by the sources before `synth.speak`. -/
structure Utter where
  text : Str
  lang : Str
  voice : Option Voice
  rate : Rat
  pitch : Rat
  volume : Rat
deriving DecidableEq, Repr

/-- Observable outcome of one dispatch call: no-op, a cloud request, or a
local Web Speech utterance submitted to the engine. -/
inductive Dispatch
  | noop
  | cloud (text : Str) (voiceId : Str)
  | localUtter (u : Utter)
deriving DecidableEq, Repr

/-- Membership in the character class of `part_003`'s
`/[ぁ-んァ-ン一-龠]/` (U+3041-U+3093, U+30A1-U+30F3, U+4E00-U+9FA0). -/
def isJaChar03 (c : Char) : Bool :=
  (0x3041 ≤ c.toNat && c.toNat ≤ 0x3093) ||
  (0x30a1 ≤ c.toNat && c.toNat ≤ 0x30f3) ||
  (0x4e00 ≤ c.toNat && c.toNat ≤ 0x9fa0)

/-- `guessLang` of `src/unnamed/part_003` (lines 19-26). -/
def guessLang03 (text : Str) (preferJa : Bool) : Str :=
  let t := trimStr text
  if preferJa then str "ja-JP"
  else if t.any isJaChar03 then str "ja-JP"
  else if t.any isLatinChar then str "en-US"
  else str "en-US"

/-- `pickVoice` of `src/unnamed/part_003` (lines 28-58): a cascade of
preference pools, first match wins (`prefer(arr) = arr[0]`). -/
def part003PickVoice (voices : List Voice) (lang : Str) : Option Voice :=
  let lower := lowerStr lang
  let starts := fun (v : Voice) (p : Str) => startsW p (lowerStr v.lang)
  if startsW (str "en") lower then
    ((((voices.filter (fun v => starts v (str "en-us") &&
        hasSub (lowerStr v.name) (str "google"))).head?).orElse
      (fun _ => (voices.filter (fun v => starts v (str "en-us") &&
        hasSub (lowerStr v.name) (str "microsoft"))).head?)).orElse
      (fun _ => (voices.filter (fun v => starts v (str "en-us"))).head?)).orElse
      (fun _ => (voices.filter (fun v => starts v (str "en"))).head?)
  else if startsW (str "ja") lower then
    (((voices.filter (fun v => starts v (str "ja-jp") &&
        hasSub (lowerStr v.name) (str "google"))).head?).orElse
      (fun _ => (voices.filter (fun v => starts v (str "ja-jp"))).head?)).orElse
      (fun _ => (voices.filter (fun v => starts v (str "ja"))).head?)
  else none

/-- Language resolution of `part_003`'s `speakTextAsync` (line 82):
`(lang || guessLang(t))` — the explicit tag wins unless absent or empty. -/
def resolveLang03 (text : Str) (lang : Option Str) : Str :=
  match lang with
  | some l => if l = [] then guessLang03 (trimStr text) false else l
  | none => guessLang03 (trimStr text) false

/-- `speakTextAsync` of `src/unnamed/part_003` (lines 78-125), as the
observable dispatch decision (`speakText` is `void speakTextAsync`).  The
`cancel-before-speak` side effect does not change which backend receives the
request and is modelled separately (settlement / stop models). -/
def part003Dispatch (apple hasSynth : Bool) (voices : List Voice)
    (text : Str) (lang : Option Str) : Dispatch :=
  let t := trimStr text
  if t = [] then .noop
  else
    let detected := resolveLang03 text lang
    if apple && startsW (str "ja") (lowerStr detected) then
      .cloud t (str "ja-JP-KeitaNeural")
    else if !hasSynth then .noop
    else
      let ulang := if startsW (str "ja") (lowerStr detected) then str "ja-JP"
        else str "en-US"
      .localUtter
        { text := t, lang := ulang, voice := part003PickVoice voices ulang,
          rate := 1, pitch := 1, volume := 1 }

/-- `speakText` of `src/unnamed/part_006` (lines 20-52), as the observable
dispatch decision (its local branch performs no voice selection). -/
def part006Speak (isIOS hasSynth : Bool) (text : Str) (lang : Str) : Dispatch :=
  let t := trimStr text
  if t = [] then .noop
  else if isIOS && startsW (str "ja") lang then .cloud t (str "ja-JP-KeitaNeural")
  else if !hasSynth then .noop
  else .localUtter
    { text := t, lang := lang, voice := none, rate := 1,
      pitch := if startsW (str "ja") lang then 21/20 else 1, volume := 1 }

/-- `speakCore` of the wired `src/app/utils/tts.ts` (lines 144-200), as the
observable dispatch decision together with the updated voice cache
(`speakText` and `speakTextAsync` both delegate to it).  It takes no
platform input and contains no cloud branch: after the empty-text and
engine-availability guards it always builds a local Web Speech utterance,
with `utter.lang = lang` kept as passed, rate defaulting to 0.95 for
Japanese/English tags, and the voice locked via
`getCachedVoice(lang) ?? pickVoice(lang)` (the `selectVoice` step). -/
def speakCoreDispatch (hasSynth : Bool) (cache : VCache) (voices : List Voice)
    (text lang : Str) (rate? pitch? volume? : Option Rat) : Dispatch × VCache :=
  let t := trimStr text
  if t = [] then (.noop, cache)
  else if !hasSynth then (.noop, cache)
  else
    let isJa := startsW (str "ja") (normLang lang)
    let isEn := startsW (str "en") (normLang lang)
    let vc := selectVoice cache voices lang
    (.localUtter
      { text := t, lang := lang, voice := vc.1,
        rate := rate?.getD (if isJa then 19/20 else if isEn then 19/20 else 1),
        pitch := pitch?.getD 1, volume := volume?.getD 1 }, vc.2)

/- ### Completion settlement of the local awaiting paths -/

/-- Engine events that can settle a local utterance's completion promise. -/
inductive UEvent
  | endEv
  | errorEv
  | speakThrew
deriving DecidableEq, Repr

/-- How a promise settles. -/
inductive Settle
  | resolvedS
  | rejectedS
deriving DecidableEq, Repr

/-- The settlement of `speakCore`'s completion promise in
`src/app/utils/tts.ts` (lines 182-199): `utter.onend = finish`,
`utter.onerror = finish`, and the `catch` around `synth.speak` also calls
`finish` — every path resolves. -/
def wiredFinish : UEvent → Settle
  | .endEv => .resolvedS
  | .errorEv => .resolvedS
  | .speakThrew => .resolvedS

/-- `speakCore`'s promise over a sequence of engine events: the `done` flag
lets only the first event settle it. -/
def speakCoreSettle (evs : List UEvent) : Option Settle :=
  evs.head?.map wiredFinish

/-- The settlement handlers of `part_003`'s local awaiting path (lines
110-124): `u.onend = () => resolve()`, `u.onerror = () => reject(...)`; a
synchronous throw of `synth.speak` inside the executor also rejects. -/
def part003LocalSettle : UEvent → Settle
  | .endEv => .resolvedS
  | .errorEv => .rejectedS
  | .speakThrew => .rejectedS

/- ### The cloud playback module (`src/app/utils/ttsCloud.ts`) -/

/-- State of the cloud playback module.  Playbacks are numbered in creation
order; playback `n` owns object URL `n`.  `pending` holds the tags of calls
that have executed their synchronous prefix (trim + `stopCloudTts`) and are
awaiting the fetch response; `listeners` holds playbacks whose `ended`/
`error` handlers are still attached; `outcomes` records promise settlements
`(playback, resolvedNormally)`. -/
structure CloudState where
  nextP : Nat
  pending : List Nat
  currentAudio : Option Nat
  currentUrl : Option Nat
  playing : List Nat
  listeners : List Nat
  started : List (Nat × Nat)
  revoked : List Nat
  outcomes : List (Nat × Bool)
deriving DecidableEq, Repr

def cInit : CloudState := ⟨0, [], none, none, [], [], [], [], []⟩

/-- `cleanupCurrentUrl` (lines 24-33): revoke the CURRENT object URL (if
any) and null the handle.  Handlers call this unconditionally, whatever URL
is current at that moment. -/
def cleanupUrl (s : CloudState) : CloudState :=
  match s.currentUrl with
  | none => s
  | some u => { s with revoked := s.revoked ++ [u], currentUrl := none }

/-- `stopCloudTts` (lines 35-46): pause the current audio (only that one),
null the handle, then clean up the current URL. -/
def stopCloudEffect (s : CloudState) : CloudState :=
  cleanupUrl { s with
    playing := match s.currentAudio with
      | some a => s.playing.erase a
      | none => s.playing,
    currentAudio := none }

/-- Atomic actions of the cloud module: the synchronous blocks between
`await` points of `speakViaCloud` (lines 73-133) and the DOM callbacks. -/
inductive CAct
  | dispatch (tag : Nat)
  | fetched (tag : Nat)
  | ended (a : Nat)
  | errored (a : Nat)
  | playFail (a : Nat)
  | stopEx
deriving DecidableEq, Repr

/-- Common body of the `onEnded`/`onError`/play-rejection handlers (lines
94-131): remove the listeners, keep `currentAudio` only if it is NOT this
audio, clean up whatever URL is current, settle the promise. -/
def completeOn (s : CloudState) (a : Nat) (ok : Bool) : CloudState :=
  if a ∈ s.listeners then
    let s1 : CloudState := { s with
      listeners := s.listeners.erase a,
      playing := s.playing.erase a,
      currentAudio := if s.currentAudio = some a then none else s.currentAudio }
    let s2 := cleanupUrl s1
    { s2 with outcomes := s2.outcomes ++ [(a, ok)] }
  else s

def cstep (s : CloudState) : CAct → CloudState
  | .dispatch tag =>
    let s1 := stopCloudEffect s
    { s1 with pending := s1.pending ++ [tag] }
  | .fetched tag =>
    if tag ∈ s.pending then
      { s with
        pending := s.pending.erase tag,
        currentUrl := some s.nextP,
        currentAudio := some s.nextP,
        playing := s.nextP :: s.playing,
        listeners := s.nextP :: s.listeners,
        started := (s.nextP, tag) :: s.started,
        nextP := s.nextP + 1 }
    else s
  | .ended a => completeOn s a true
  | .errored a => completeOn s a false
  | .playFail a => completeOn s a false
  | .stopEx => stopCloudEffect s

def crun (s : CloudState) (acts : List CAct) : CloudState := acts.foldl cstep s

/-- Reachable cloud-module states. -/
inductive CReach : CloudState → Prop
  | init : CReach cInit
  | next {s : CloudState} (a : CAct) : CReach s → CReach (cstep s a)

/- ### The audio byte cache (`fetchMp3`, lines 48-71) -/

/-- State relevant to `fetchMp3`: the in-memory `audioCache` and a count of
network requests issued. -/
structure FetchSt where
  cache : Str → Option Nat
  fetchCount : Nat

/-- The cache key `voice::text` (line 49). -/
def mkKey (voice text : Str) : Str := voice ++ str "::" ++ text

/-- `fetchMp3` (lines 48-71): serve from `audioCache` when present;
otherwise issue one network request (`net` is the response oracle, `none`
modelling failure) and cache the returned bytes on success. -/
def fetchMp3 (net : Str → Str → Option Nat) (s : FetchSt) (text voice : Str) :
    Except Unit Nat × FetchSt :=
  match s.cache (mkKey voice text) with
  | some b => (.ok b, s)
  | none =>
    match net text voice with
    | some b =>
      (.ok b, { cache := fun k => if k = mkKey voice text then some b else s.cache k,
                fetchCount := s.fetchCount + 1 })
    | none => (.error (), { s with fetchCount := s.fetchCount + 1 })

/- ### The stop-all variants -/

/-- Combined backend state seen by the `stopTts` variants: whether the Web
Speech engine is speaking, `part_005`'s module-level `utterance` handle, the
main cloud module's state, and the second cloud variant's `audio` handle. -/
structure SysState where
  synthSpeaking : Bool
  utterVar : Bool
  cloudA : CloudState
  cloudB : Option Nat
deriving DecidableEq, Repr

/-- `stopTts` of the wired `src/app/utils/tts.ts` (lines 127-133): only
`window.speechSynthesis.cancel()`; the cloud module is never touched. -/
def wiredStopTts (s : SysState) : SysState :=
  { s with synthSpeaking := false }

/-- `stopTts` of `src/unnamed/part_003` (lines 60-71): cancel Web Speech,
then `stopCloudTts()`. -/
def part003StopTts (s : SysState) : SysState :=
  { s with synthSpeaking := false, cloudA := stopCloudEffect s.cloudA }

/-- `stopTts` of `src/unnamed/part_005` (lines 18-24): cancel Web Speech
only when the module's own `utterance` handle is set, then `stopCloud()`. -/
def part005StopTts (s : SysState) : SysState :=
  { s with
    synthSpeaking := if s.utterVar then false else s.synthSpeaking,
    utterVar := false,
    cloudB := none }

/-- Invariant of the cloud module used below: the revocation log has no
duplicates, every logged URL was allocated, and the currently held URL is an
allocated, not-yet-revoked one. -/
def CInv (s : CloudState) : Prop :=
  s.revoked.Nodup ∧ (∀ u ∈ s.revoked, u < s.nextP) ∧
  (∀ u, s.currentUrl = some u → u < s.nextP ∧ u ∉ s.revoked)

/- ### Lemmas about the stable sort and the selectors -/

theorem mem_insDesc {f : Voice → Int} {x a : Voice} {l : List Voice} :
    a ∈ insDesc f x l ↔ a = x ∨ a ∈ l := by
  induction l with
  | nil => simp [insDesc]
  | cons y ys ih =>
    by_cases hy : f y < f x
    · simp [insDesc, hy]
    · simp only [insDesc, if_neg hy, List.mem_cons, ih]
      tauto

theorem mem_sortDescAux {f : Voice → Int} {a : Voice} (l acc : List Voice) :
    a ∈ sortDescAux f l acc ↔ a ∈ l ∨ a ∈ acc := by
  induction l generalizing acc with
  | nil => simp [sortDescAux]
  | cons x xs ih =>
    simp only [sortDescAux]
    rw [ih]
    simp only [mem_insDesc, List.mem_cons]
    tauto

theorem mem_sortDesc {f : Voice → Int} {a : Voice} {l : List Voice} :
    a ∈ sortDesc f l ↔ a ∈ l := by
  simp [sortDesc, mem_sortDescAux]

theorem insDesc_sorted {f : Voice → Int} {x : Voice} {l : List Voice}
    (h : DescSorted f l) : DescSorted f (insDesc f x l) := by
  induction l with
  | nil => simp [insDesc, DescSorted]
  | cons y ys ih =>
    rcases List.pairwise_cons.1 h with ⟨hy, hys⟩
    by_cases hlt : f y < f x
    · rw [insDesc, if_pos hlt]
      refine List.pairwise_cons.2 ⟨?_, h⟩
      intro b hb
      rcases List.mem_cons.1 hb with rfl | hmem
      · exact le_of_lt hlt
      · exact le_trans (hy b hmem) (le_of_lt hlt)
    · rw [insDesc, if_neg hlt]
      refine List.pairwise_cons.2 ⟨?_, ih hys⟩
      intro b hb
      rcases mem_insDesc.1 hb with rfl | hmem
      · exact le_of_not_lt hlt
      · exact hy b hmem

theorem sortDescAux_sorted {f : Voice → Int} (l : List Voice) :
    ∀ acc, DescSorted f acc → DescSorted f (sortDescAux f l acc) := by
  induction l with
  | nil => intro acc h; simpa [sortDescAux] using h
  | cons x xs ih =>
    intro acc h
    simp only [sortDescAux]
    exact ih _ (insDesc_sorted h)

theorem sortDesc_sorted {f : Voice → Int} (l : List Voice) :
    DescSorted f (sortDesc f l) :=
  sortDescAux_sorted l [] List.Pairwise.nil

/-- The head of the descending sort is a maximal-score member of the list. -/
theorem sortDesc_head_max {f : Voice → Int} {l : List Voice} {v : Voice}
    (h : (sortDesc f l).head? = some v) :
    v ∈ l ∧ ∀ w ∈ l, f w ≤ f v := by
  cases hsl : sortDesc f l with
  | nil => rw [hsl] at h; cases h
  | cons a t =>
    rw [hsl] at h
    have hva : v = a := by
      simp only [List.head?] at h
      exact (Option.some.inj h).symm
    subst hva
    have hs := sortDesc_sorted (f := f) l
    rw [hsl] at hs
    constructor
    · have hmem : v ∈ sortDesc f l := by
        rw [hsl]; exact List.mem_cons_self _ _
      exact mem_sortDesc.1 hmem
    · intro w hw
      have hww : w ∈ sortDesc f l := mem_sortDesc.2 hw
      rw [hsl] at hww
      rcases List.mem_cons.1 hww with rfl | hmem
      · exact le_refl _
      · exact (List.pairwise_cons.1 hs).1 w hmem

theorem sortDesc_ne_nil {f : Voice → Int} {l : List Voice} (h : l ≠ []) :
    sortDesc f l ≠ [] := by
  intro hcontra
  rcases List.exists_mem_of_ne_nil l h with ⟨x, hx⟩
  have hmem := mem_sortDesc (f := f).2 hx
  rw [hcontra] at hmem
  cases hmem

theorem poolWired_ne_nil {voices : List Voice} {lang : Str} (h : voices ≠ []) :
    poolWired voices lang ≠ [] := by
  unfold poolWired
  by_cases hs : voices.filter
      (fun v => startsW (normLang lang) (normLang v.lang)) = []
  · simpa [hs] using h
  · simp [hs]

/- ### Helper lemmas about `trimStr` and the character classes -/

theorem mem_of_mem_dropWhile {p : Char → Bool} {c : Char} {l : Str}
    (h : c ∈ l.dropWhile p) : c ∈ l := by
  induction l with
  | nil => simp [List.dropWhile] at h
  | cons x xs ih =>
    by_cases hx : p x
    · exact List.mem_cons_of_mem x (ih (by simpa [List.dropWhile, hx] using h))
    · simpa [List.dropWhile, hx] using h

theorem mem_dropWhile_of_mem {p : Char → Bool} {c : Char} {l : Str}
    (hc : c ∈ l) (hp : p c = false) : c ∈ l.dropWhile p := by
  induction l with
  | nil => cases hc
  | cons x xs ih =>
    by_cases hx : p x
    · rcases List.mem_cons.1 hc with rfl | hmem
      · simp [hx] at hp
      · simpa [List.dropWhile, hx] using ih hmem
    · simpa [List.dropWhile, hx] using hc

theorem mem_of_mem_trim {c : Char} {l : Str} (h : c ∈ trimStr l) : c ∈ l := by
  unfold trimStr at h
  have h1 := List.mem_reverse.1 h
  have h2 := mem_of_mem_dropWhile h1
  exact mem_of_mem_dropWhile (List.mem_reverse.1 h2)

theorem mem_trim_of_mem {c : Char} {l : Str} (hc : c ∈ l) (hp : wsChar c = false) :
    c ∈ trimStr l := by
  unfold trimStr
  refine List.mem_reverse.2 (mem_dropWhile_of_mem ?_ hp)
  exact List.mem_reverse.2 (mem_dropWhile_of_mem hc hp)

theorem jaChar_not_ws {c : Char} (h : isJaChar c = true) : wsChar c = false := by
  have hb : (0x3040 ≤ c.toNat ∧ c.toNat ≤ 0x30ff) ∨
      (0x3400 ≤ c.toNat ∧ c.toNat ≤ 0x4dbf) ∨
      (0x4e00 ≤ c.toNat ∧ c.toNat ≤ 0x9fff) := by
    unfold isJaChar at h
    simp only [Bool.or_eq_true, Bool.and_eq_true, decide_eq_true_eq] at h
    rcases h with (h | h) | h
    · exact Or.inl h
    · exact Or.inr (Or.inl h)
    · exact Or.inr (Or.inr h)
  rw [← Bool.not_eq_true]
  unfold wsChar
  simp only [Bool.or_eq_true, decide_eq_true_eq]
  intro hws
  rcases hws with ((((((((hc | hc) | hc) | hc) | hc) | hc) | hc) | hc) | hc) <;> omega

theorem latinChar_not_ws {c : Char} (h : isLatinChar c = true) : wsChar c = false := by
  have hb : (0x41 ≤ c.toNat ∧ c.toNat ≤ 0x5a) ∨ (0x61 ≤ c.toNat ∧ c.toNat ≤ 0x7a) := by
    unfold isLatinChar at h
    simp only [Bool.or_eq_true, Bool.and_eq_true, decide_eq_true_eq] at h
    exact h
  rw [← Bool.not_eq_true]
  unfold wsChar
  simp only [Bool.or_eq_true, decide_eq_true_eq]
  intro hws
  rcases hws with ((((((((hc | hc) | hc) | hc) | hc) | hc) | hc) | hc) | hc) <;> omega

/- ### Helper lemmas about the cloud state machine -/

theorem cleanupUrl_currentAudio (s : CloudState) :
    (cleanupUrl s).currentAudio = s.currentAudio := by
  unfold cleanupUrl
  split <;> rfl

theorem cleanupUrl_playing (s : CloudState) :
    (cleanupUrl s).playing = s.playing := by
  unfold cleanupUrl
  split <;> rfl

theorem cleanupUrl_currentUrl (s : CloudState) :
    (cleanupUrl s).currentUrl = none := by
  unfold cleanupUrl
  split
  case _ heq => exact heq
  case _ u heq => rfl

theorem stopCloudEffect_currentAudio (s : CloudState) :
    (stopCloudEffect s).currentAudio = none := by
  unfold stopCloudEffect
  rw [cleanupUrl_currentAudio]

theorem stopCloudEffect_currentUrl (s : CloudState) :
    (stopCloudEffect s).currentUrl = none :=
  cleanupUrl_currentUrl _

theorem stopCloudEffect_playing (s : CloudState) :
    (stopCloudEffect s).playing =
      match s.currentAudio with
      | some a => s.playing.erase a
      | none => s.playing := by
  unfold stopCloudEffect
  rw [cleanupUrl_playing]

theorem completeOn_currentAudio_of_ne {s : CloudState} {a b : Nat} {ok : Bool}
    (hb : s.currentAudio = some b) (hab : a ≠ b) :
    (completeOn s a ok).currentAudio = some b := by
  unfold completeOn
  by_cases hl : a ∈ s.listeners
  · rw [if_pos hl]
    rw [cleanupUrl_currentAudio]
    show (if s.currentAudio = some a then none else s.currentAudio) = some b
    rw [hb]
    rw [if_neg (by intro hc; exact hab (Option.some.inj hc).symm)]
  · rw [if_neg hl]
    exact hb

theorem cinv_cleanupUrl {s : CloudState} (h : CInv s) : CInv (cleanupUrl s) := by
  obtain ⟨hnd, hbound, hcur⟩ := h
  unfold cleanupUrl
  split
  case _ heq => exact ⟨hnd, hbound, hcur⟩
  case _ u heq =>
    obtain ⟨hult, hunr⟩ := hcur u heq
    refine ⟨?_, ?_, ?_⟩
    · rw [List.nodup_append]
      refine ⟨hnd, List.nodup_singleton u, ?_⟩
      intro x hx hx'
      rw [List.mem_singleton] at hx'
      subst hx'
      exact hunr hx
    · intro x hx
      rcases List.mem_append.1 hx with hx | hx
      · exact hbound x hx
      · rw [List.mem_singleton] at hx
        subst hx
        exact hult
    · intro x hx
      cases hx

theorem cinv_stopCloudEffect {s : CloudState} (h : CInv s) :
    CInv (stopCloudEffect s) := by
  unfold stopCloudEffect
  exact cinv_cleanupUrl ⟨h.1, h.2.1, h.2.2⟩

theorem cinv_completeOn {s : CloudState} {a : Nat} {ok : Bool} (h : CInv s) :
    CInv (completeOn s a ok) := by
  unfold completeOn
  by_cases hl : a ∈ s.listeners
  · rw [if_pos hl]
    have h2 := cinv_cleanupUrl (s := { s with
      listeners := s.listeners.erase a,
      playing := s.playing.erase a,
      currentAudio := if s.currentAudio = some a then none
        else s.currentAudio }) ⟨h.1, h.2.1, h.2.2⟩
    exact ⟨h2.1, h2.2.1, h2.2.2⟩
  · rw [if_neg hl]
    exact h

theorem cinv_cstep {s : CloudState} (a : CAct) (h : CInv s) : CInv (cstep s a) := by
  cases a with
  | dispatch tag =>
    have h1 := cinv_stopCloudEffect h
    exact ⟨h1.1, h1.2.1, h1.2.2⟩
  | fetched tag =>
    by_cases hp : tag ∈ s.pending
    · simp only [cstep, if_pos hp]
      obtain ⟨hnd, hbound, hcur⟩ := h
      refine ⟨hnd, ?_, ?_⟩
      · intro u hu
        exact Nat.lt_succ_of_lt (hbound u hu)
      · intro u hu
        have hu' : s.nextP = u := Option.some.inj hu
        subst hu'
        exact ⟨Nat.lt_succ_self _, fun hmem => lt_irrefl _ (hbound _ hmem)⟩
    · simp only [cstep, if_neg hp]
      exact h
  | ended a1 => exact cinv_completeOn h
  | errored a1 => exact cinv_completeOn h
  | playFail a1 => exact cinv_completeOn h
  | stopEx => exact cinv_stopCloudEffect h

theorem cinv_reach {s : CloudState} (h : CReach s) : CInv s := by
  induction h with
  | init =>
    refine ⟨List.nodup_nil, ?_, ?_⟩
    · intro u hu
      cases hu
    · intro u hu
      cases hu
  | next a hr ih => exact cinv_cstep a ih

/- ### Helper lemmas about the selectors -/

theorem orElse_eq_some_cases {α : Type} {o : Option α} {f : Unit → Option α}
    {x : α} (h : o.orElse f = some x) : o = some x ∨ (o = none ∧ f () = some x) := by
  cases o with
  | none =>
    simp only [Option.orElse] at h
    exact Or.inr ⟨rfl, h⟩
  | some a =>
    simp only [Option.orElse] at h
    exact Or.inl (by rw [h])

theorem poolWired_subset {voices : List Voice} {lang : Str} {v : Voice}
    (h : v ∈ poolWired voices lang) : v ∈ voices := by
  have h' : v ∈ (if voices.filter
        (fun w => startsW (normLang lang) (normLang w.lang)) = [] then voices
      else voices.filter (fun w => startsW (normLang lang) (normLang w.lang))) := h
  split at h'
  · exact h'
  · exact (List.mem_filter.1 h').1

theorem pickVoiceWired_mem {voices : List Voice} {lang : Str} {v : Voice}
    (h : pickVoiceWired voices lang = some v) : v ∈ voices := by
  unfold pickVoiceWired at h
  split at h
  · cases h
  · exact poolWired_subset (sortDesc_head_max h).1

theorem getCachedVoice_mem {cache : VCache} {voices : List Voice} {lang : Str}
    {v : Voice} (h : getCachedVoice cache voices lang = some v) : v ∈ voices := by
  unfold getCachedVoice at h
  split at h
  · cases h
  · rcases orElse_eq_some_cases h with h1 | ⟨_, h2⟩
    · exact List.mem_of_find?_eq_some h1
    · exact List.mem_of_find?_eq_some h2

/- ### C10 -/

/-- C10: for every input string and every option value, the wired
`guessLang` returns one of exactly two tags, `ja-JP` or `en-US`; the
`other` bucket of the detector contract is never produced — in particular
the empty string, whitespace-only text, digits/punctuation, and Cyrillic
text all yield `en-US`. -/
theorem c10_guessLangWired_codomain :
    (∀ (t : Str) (preferJa : Bool),
      guessLangWired t preferJa = str "ja-JP" ∨
        guessLangWired t preferJa = str "en-US") ∧
    guessLangWired (str "") false = str "en-US" ∧
    guessLangWired (str "   ") false = str "en-US" ∧
    guessLangWired (str "123, 456!") false = str "en-US" ∧
    guessLangWired (str "Привет") false = str "en-US" := by
  refine ⟨?_, by decide, by decide, by decide, by decide⟩
  intro t p
  simp only [guessLangWired]
  split
  · exact Or.inr rfl
  split
  · exact Or.inl rfl
  split
  · exact Or.inl rfl
  split
  · exact Or.inr rfl
  · exact Or.inr rfl

/- ### C8 -/

/-- C8 counterexample: the claim says text containing neither a Japanese
character nor a Latin letter yields English, but `guessLang` of
`src/unnamed/part_005` (a cited source of the claim) maps such text —
here the digits string — to its `other` bucket, not to English. -/
theorem c8_counterexample :
    guessLang05 (str "123") = Lang05.other ∧ Lang05.other ≠ Lang05.en := by
  exact ⟨by decide, by decide⟩

/-- C8 (amended): text containing a Japanese-range character is detected as
Japanese by both the wired `guessLang` and `part_005`'s; text containing a
Latin letter and no Japanese character is detected as English by both (no
caller override); text containing neither yields the `en-US` default in the
wired detector but the `other` bucket in `part_005`'s. -/
theorem c8_amended :
    (∀ (t : Str) (p : Bool) (c : Char), c ∈ t → isJaChar c = true →
      guessLangWired t p = str "ja-JP") ∧
    (∀ t : Str, (∃ c ∈ t, isLatinChar c = true) → (∀ c ∈ t, isJaChar c = false) →
      guessLangWired t false = str "en-US") ∧
    (∀ t : Str, (∀ c ∈ t, isJaChar c = false) → (∀ c ∈ t, isLatinChar c = false) →
      guessLangWired t false = str "en-US") ∧
    (∀ (t : Str) (c : Char), c ∈ t → isJaChar c = true →
      guessLang05 t = Lang05.ja) ∧
    (∀ t : Str, (∃ c ∈ t, isLatinChar c = true) → (∀ c ∈ t, isJaChar c = false) →
      guessLang05 t = Lang05.en) ∧
    (∀ t : Str, (∀ c ∈ t, isJaChar c = false) → (∀ c ∈ t, isLatinChar c = false) →
      guessLang05 t = Lang05.other) := by
  refine ⟨?_, ?_, ?_, ?_, ?_, ?_⟩
  · intro t p c hc hja
    have hmem : c ∈ trimStr t := mem_trim_of_mem hc (jaChar_not_ws hja)
    have hne : trimStr t ≠ [] := List.ne_nil_of_mem hmem
    have hany : (trimStr t).any isJaChar = true := List.any_eq_true.2 ⟨c, hmem, hja⟩
    simp [guessLangWired, hne, hany]
  · intro t _ hall
    have hja' : (trimStr t).any isJaChar = false := by
      rw [List.any_eq_false]
      intro c hc
      simp [hall c (mem_of_mem_trim hc)]
    simp [guessLangWired, hja']
  · intro t hall _
    have hja' : (trimStr t).any isJaChar = false := by
      rw [List.any_eq_false]
      intro c hc
      simp [hall c (mem_of_mem_trim hc)]
    simp [guessLangWired, hja']
  · intro t c hc hja
    have hany : t.any isJaChar = true := List.any_eq_true.2 ⟨c, hc, hja⟩
    simp [guessLang05, hany]
  · intro t hlat hall
    have hja' : t.any isJaChar = false := by
      rw [List.any_eq_false]
      intro c hc
      simp [hall c hc]
    obtain ⟨c, hc, hlc⟩ := hlat
    have hany : t.any isLatinChar = true := List.any_eq_true.2 ⟨c, hc, hlc⟩
    simp [guessLang05, hja', hany]
  · intro t hja hlat
    have hja' : t.any isJaChar = false := by
      rw [List.any_eq_false]
      intro c hc
      simp [hja c hc]
    have hlat' : t.any isLatinChar = false := by
      rw [List.any_eq_false]
      intro c hc
      simp [hlat c hc]
    simp [guessLang05, hja', hlat']

/-- C8 witness: the amended theorem applied at concrete inputs. -/
theorem c8_amended_witness :
    guessLangWired (str "こんにちは") false = str "ja-JP" ∧
    guessLangWired (str "Hello") false = str "en-US" ∧
    guessLang05 (str "水") = Lang05.ja ∧
    guessLang05 (str "abc") = Lang05.en ∧
    guessLang05 (str "!?") = Lang05.other :=
  ⟨c8_amended.1 (str "こんにちは") false 'こ' (by decide) (by decide),
   c8_amended.2.1 (str "Hello") ⟨'H', by decide, by decide⟩ (by decide),
   c8_amended.2.2.2.1 (str "水") '水' (by decide) (by decide),
   c8_amended.2.2.2.2.1 (str "abc") ⟨'a', by decide, by decide⟩ (by decide),
   c8_amended.2.2.2.2.2 (str "!?") (by decide) (by decide)⟩

/- ### C4 -/

/-- C4 counterexample: in the local awaiting path of `part_003`'s
`speakTextAsync` (a cited source of the claim), the error event rejects the
promise while the end event resolves it — refuting that the error event is
treated exactly like the end event and never rejects. -/
theorem c4_counterexample :
    part003LocalSettle UEvent.endEv = Settle.resolvedS ∧
    part003LocalSettle UEvent.errorEv = Settle.rejectedS ∧
    Settle.rejectedS ≠ Settle.resolvedS := by
  exact ⟨rfl, rfl, by decide⟩

/-- C4 (amended): the wired `speakCore` treats the engine's error event as
normal completion — its promise settles exactly as for the end event and can
never reject — but `part_003`'s local awaiting path rejects on the error
event. -/
theorem c4_amended :
    (∀ evs : List UEvent, evs ≠ [] → speakCoreSettle evs = some Settle.resolvedS) ∧
    (∀ evs : List UEvent, speakCoreSettle evs ≠ some Settle.rejectedS) ∧
    part003LocalSettle UEvent.endEv = Settle.resolvedS ∧
    part003LocalSettle UEvent.errorEv = Settle.rejectedS := by
  refine ⟨?_, ?_, rfl, rfl⟩
  · intro evs h
    cases evs with
    | nil => exact absurd rfl h
    | cons e es => cases e <;> rfl
  · intro evs
    cases evs with
    | nil => simp [speakCoreSettle]
    | cons e es => cases e <;> simp [speakCoreSettle, wiredFinish]

/-- C4 witness: the amended theorem applied to a one-event error sequence. -/
theorem c4_amended_witness :
    speakCoreSettle [UEvent.errorEv] = some Settle.resolvedS :=
  c4_amended.1 [UEvent.errorEv] (by simp)

/- ### C7 -/

/-- C7: on the cloud path, two `fetchMp3` calls with an identical
(text, voiceId) pair cause exactly one network fetch: the first call (cache
miss, successful response) stores the returned bytes in `audioCache` under
the key built from voice and text and bumps the request count once; the
second call returns the same bytes from the cache with the state unchanged
(no further request). -/
theorem c7_fetch_once (net : Str → Str → Option Nat) (s : FetchSt)
    (text voice : Str) (b : Nat)
    (hmiss : s.cache (mkKey voice text) = none)
    (hnet : net text voice = some b) :
    (fetchMp3 net s text voice).1 = Except.ok b ∧
    (fetchMp3 net s text voice).2.fetchCount = s.fetchCount + 1 ∧
    (fetchMp3 net s text voice).2.cache (mkKey voice text) = some b ∧
    fetchMp3 net (fetchMp3 net s text voice).2 text voice =
      (Except.ok b, (fetchMp3 net s text voice).2) := by
  have h1 : fetchMp3 net s text voice =
      (Except.ok b,
        ⟨fun k => if k = mkKey voice text then some b else s.cache k,
         s.fetchCount + 1⟩) := by
    unfold fetchMp3
    rw [hmiss, hnet]
  rw [h1]
  refine ⟨rfl, rfl, by simp, ?_⟩
  unfold fetchMp3
  simp

/-- C7 witness: the theorem applied at a concrete oracle and empty cache. -/
theorem c7_fetch_once_witness :
    (fetchMp3 (fun _ _ => some 7) ⟨fun _ => none, 0⟩ (str "hello") (str "v")).1 =
      Except.ok 7 ∧
    (fetchMp3 (fun _ _ => some 7) ⟨fun _ => none, 0⟩ (str "hello") (str "v")).2.fetchCount =
      0 + 1 ∧
    (fetchMp3 (fun _ _ => some 7) ⟨fun _ => none, 0⟩ (str "hello")
        (str "v")).2.cache (mkKey (str "v") (str "hello")) = some 7 ∧
    fetchMp3 (fun _ _ => some 7)
        (fetchMp3 (fun _ _ => some 7) ⟨fun _ => none, 0⟩ (str "hello") (str "v")).2
        (str "hello") (str "v") =
      (Except.ok 7,
        (fetchMp3 (fun _ _ => some 7) ⟨fun _ => none, 0⟩ (str "hello") (str "v")).2) :=
  c7_fetch_once (fun _ _ => some 7) ⟨fun _ => none, 0⟩ (str "hello") (str "v") 7 rfl rfl

/- ### C3 -/

/-- C3 counterexample: with an active cloud playback (playback 0 playing,
held by the cloud module), a call to the wired module's `stopTts` — a cited
source of the claim — leaves the cloud playback fully active: it cancels
only Web Speech and never stops cloud audio, refuting that every call to
`stopTts` unconditionally stops both backends. -/
theorem c3_counterexample :
    (wiredStopTts
      ⟨true, false, crun cInit [CAct.dispatch 0, CAct.fetched 0], none⟩).synthSpeaking
        = false ∧
    (wiredStopTts
      ⟨true, false, crun cInit [CAct.dispatch 0, CAct.fetched 0], none⟩).cloudA.playing
        = [0] ∧
    (wiredStopTts
      ⟨true, false, crun cInit [CAct.dispatch 0, CAct.fetched 0], none⟩).cloudA.currentAudio
        = some 0 := by
  refine ⟨rfl, by decide, by decide⟩

/-- C3 (amended): `stopTts` of `part_003` stops both backends
unconditionally — it cancels Web Speech and stops the cloud module's active
playback (clearing the audio and URL handles and pausing the current
audio); the wired module's `stopTts` cancels only local Web Speech and
leaves the cloud module untouched; `part_005`'s `stopTts` always stops its
cloud audio handle but cancels Web Speech only when its own module-level
`utterance` handle is set. -/
theorem c3_amended :
    (∀ s : SysState,
      (part003StopTts s).synthSpeaking = false ∧
      (part003StopTts s).cloudA.currentAudio = none ∧
      (part003StopTts s).cloudA.currentUrl = none) ∧
    (∀ (s : SysState) (a : Nat), s.cloudA.currentAudio = some a →
      s.cloudA.playing.Nodup → a ∉ (part003StopTts s).cloudA.playing) ∧
    (∀ s : SysState,
      (wiredStopTts s).synthSpeaking = false ∧
      (wiredStopTts s).cloudA = s.cloudA ∧
      (wiredStopTts s).cloudB = s.cloudB) ∧
    (∀ s : SysState,
      (part005StopTts s).cloudB = none ∧
      (part005StopTts s).synthSpeaking =
        (if s.utterVar then false else s.synthSpeaking)) := by
  refine ⟨?_, ?_, ?_, ?_⟩
  · intro s
    exact ⟨rfl, stopCloudEffect_currentAudio _, stopCloudEffect_currentUrl _⟩
  · intro s a ha hnd
    have hp : (part003StopTts s).cloudA.playing = s.cloudA.playing.erase a := by
      have h1 := stopCloudEffect_playing s.cloudA
      rw [ha] at h1
      exact h1
    rw [hp]
    exact hnd.not_mem_erase
  · intro s
    exact ⟨rfl, rfl, rfl⟩
  · intro s
    exact ⟨rfl, rfl⟩

/-- C3 witness: the amended theorem's `part_003` clause applied to a state
with an active cloud playback. -/
theorem c3_amended_witness :
    0 ∉ (part003StopTts
      ⟨true, false, crun cInit [CAct.dispatch 0, CAct.fetched 0], none⟩).cloudA.playing :=
  c3_amended.2.1 ⟨true, false, crun cInit [CAct.dispatch 0, CAct.fetched 0], none⟩ 0
    (by decide) (by decide)

/- ### C5 -/

/-- C5 counterexample: `pickVoice` of `src/unnamed/part_001` — a cited
source of the claim — returns none on a non-empty voice list whenever the
language-filtered pool is empty, refuting both the fall-back-to-full-list
clause and the none-iff-empty-list clause of the claim. -/
theorem c5_counterexample :
    pickVoice001 [⟨str "Alice", str "en-US", str "", false⟩] (str "ja") = none ∧
    ([⟨str "Alice", str "en-US", str "", false⟩] : List Voice) ≠ [] := by
  exact ⟨by decide, by decide⟩

/-- C5 (amended): the wired `pickVoice` filters to voices whose normalised
tag starts with the target prefix, falls back to the full list when that
filter is empty, and returns a top-scored candidate of the pool — it
returns none iff the voice list is empty; `pickVoice` of `part_001`
performs the same filter but returns none exactly when the filtered pool is
empty (no fallback), returning a top-scored candidate of the filtered pool
otherwise. -/
theorem c5_amended :
    (∀ (voices : List Voice) (lang : Str),
      pickVoiceWired voices lang = none ↔ voices = []) ∧
    (∀ (voices : List Voice) (lang : Str) (v : Voice),
      pickVoiceWired voices lang = some v →
        v ∈ poolWired voices lang ∧
        ∀ w ∈ poolWired voices lang, scoreWired w ≤ scoreWired v) ∧
    (∀ (voices : List Voice) (lang : Str),
      pickVoice001 voices lang = none ↔ pool001 voices lang = []) ∧
    (∀ (voices : List Voice) (lang : Str) (v : Voice),
      pickVoice001 voices lang = some v →
        v ∈ pool001 voices lang ∧
        ∀ w ∈ pool001 voices lang, score001 w ≤ score001 v) := by
  refine ⟨?_, ?_, ?_, ?_⟩
  · intro voices lang
    constructor
    · intro h
      by_contra hne
      rw [pickVoiceWired, if_neg hne, List.head?_eq_none_iff] at h
      exact sortDesc_ne_nil (poolWired_ne_nil hne) h
    · intro h
      subst h
      rfl
  · intro voices lang v h
    have hne : voices ≠ [] := by
      intro he
      subst he
      cases h
    rw [pickVoiceWired, if_neg hne] at h
    exact sortDesc_head_max h
  · intro voices lang
    constructor
    · intro h
      by_cases hv : voices = []
      · subst hv
        simp [pool001]
      · rw [pickVoice001, if_neg hv] at h
        by_cases hp : pool001 voices lang = []
        · exact hp
        · rw [if_neg hp, List.head?_eq_none_iff] at h
          exact absurd h (sortDesc_ne_nil hp)
    · intro h
      unfold pickVoice001
      by_cases hv : voices = []
      · rw [if_pos hv]
      · rw [if_neg hv, if_pos h]
  · intro voices lang v h
    have hv : voices ≠ [] := by
      intro he
      subst he
      cases h
    have hp : pool001 voices lang ≠ [] := by
      intro he
      rw [pickVoice001, if_neg hv, if_pos he] at h
      cases h
    rw [pickVoice001, if_neg hv, if_neg hp] at h
    exact sortDesc_head_max h

/-- C5 witness: the amended theorem applied to a one-voice list with no
Japanese-tagged voice — the wired selector falls back to the full list. -/
theorem c5_amended_witness :
    (⟨str "Alice", str "en-US", str "", false⟩ : Voice) ∈
      poolWired [⟨str "Alice", str "en-US", str "", false⟩] (str "ja") ∧
    ∀ w ∈ poolWired [⟨str "Alice", str "en-US", str "", false⟩] (str "ja"),
      scoreWired w ≤ scoreWired ⟨str "Alice", str "en-US", str "", false⟩ :=
  c5_amended.2.1 [⟨str "Alice", str "en-US", str "", false⟩] (str "ja")
    ⟨str "Alice", str "en-US", str "", false⟩ (by decide)

/- ### C6 -/

/-- C6: given a fixed set of available voices and a language key, repeated
voice selections within one session return the same voice — identified by
name plus language tag, via the per-language cache populated on the first
successful selection — even if the order of the underlying voice list
changes (any permutation) between the calls. -/
theorem c6_cache_stable (cache : VCache) (voices voices2 : List Voice)
    (lang : Str) (v : Voice)
    (h1 : (selectVoice cache voices lang).1 = some v)
    (hperm : voices.Perm voices2) :
    ∃ v2 : Voice,
      (selectVoice (selectVoice cache voices lang).2 voices2 lang).1 = some v2 ∧
      v2.name = v.name ∧ v2.lang = v.lang := by
  have horc : (getCachedVoice cache voices lang).orElse
      (fun _ => pickVoiceWired voices lang) = some v := by
    unfold selectVoice at h1
    cases hh : (getCachedVoice cache voices lang).orElse
        (fun _ => pickVoiceWired voices lang) with
    | none =>
      rw [hh] at h1
      simp at h1
    | some w =>
      rw [hh] at h1
      simp at h1
      rw [h1]
  have hcache2 : (selectVoice cache voices lang).2 = cacheVoice cache lang v := by
    unfold selectVoice
    rw [horc]
  have hvmem : v ∈ voices := by
    rcases orElse_eq_some_cases horc with hg | ⟨_, hpick⟩
    · exact getCachedVoice_mem hg
    · exact pickVoiceWired_mem hpick
  have hvmem2 : v ∈ voices2 := hperm.mem_iff.1 hvmem
  have hkey : cacheVoice cache lang v (normLang lang) =
      some ⟨v.name, v.lang, v.voiceURI⟩ := by
    unfold cacheVoice
    simp
  have hfind : ∃ w, voices2.find?
      (fun w => w.name == v.name && w.lang == v.lang) = some w := by
    have hsome : (voices2.find?
        (fun w => w.name == v.name && w.lang == v.lang)).isSome := by
      rw [List.find?_isSome]
      exact ⟨v, hvmem2, by simp⟩
    exact Option.isSome_iff_exists.1 hsome
  obtain ⟨w, hw⟩ := hfind
  have hwprop := List.find?_some hw
  simp only [Bool.and_eq_true, beq_iff_eq] at hwprop
  have hgcv : getCachedVoice (cacheVoice cache lang v) voices2 lang = some w := by
    unfold getCachedVoice
    rw [hkey]
    dsimp only
    rw [hw]
    rfl
  refine ⟨w, ?_, hwprop.1, hwprop.2⟩
  rw [hcache2]
  have horc2 : (getCachedVoice (cacheVoice cache lang v) voices2 lang).orElse
      (fun _ => pickVoiceWired voices2 lang) = some w := by
    rw [hgcv]
    rfl
  unfold selectVoice
  rw [horc2]

/-- C6 witness: the theorem applied to a two-voice list and its reversal. -/
theorem c6_cache_stable_witness :
    ∃ v2 : Voice,
      (selectVoice
        (selectVoice (fun _ => none)
          [⟨str "Kyoko", str "ja-JP", str "u1", false⟩,
           ⟨str "Alda", str "en-US", str "u2", false⟩] (str "ja-JP")).2
        [⟨str "Alda", str "en-US", str "u2", false⟩,
         ⟨str "Kyoko", str "ja-JP", str "u1", false⟩] (str "ja-JP")).1 = some v2 ∧
      v2.name = (⟨str "Kyoko", str "ja-JP", str "u1", false⟩ : Voice).name ∧
      v2.lang = (⟨str "Kyoko", str "ja-JP", str "u1", false⟩ : Voice).lang :=
  c6_cache_stable (fun _ => none)
    [⟨str "Kyoko", str "ja-JP", str "u1", false⟩,
     ⟨str "Alda", str "en-US", str "u2", false⟩]
    [⟨str "Alda", str "en-US", str "u2", false⟩,
     ⟨str "Kyoko", str "ja-JP", str "u1", false⟩]
    (str "ja-JP") ⟨str "Kyoko", str "ja-JP", str "u1", false⟩
    (by decide) (by decide)

/- ### C1 -/

/-- C1 counterexample: two cited sources falsify the claim as stated.  The
wired dispatch (`speakCore`, wrapped by the wired `speakText` and
`speakTextAsync`) performs local Web Speech synthesis for a non-empty
Japanese request — it has no platform branch at all and never produces a
cloud request, so on an Apple-mobile platform it behaves the same way,
refuting the routes-to-cloud / no-local-synthesis clause.  And `part_006`'s
local branch builds its utterance with no voice selected, refuting the
voice-selection-first clause. -/
theorem c1_counterexample :
    (speakCoreDispatch true (fun _ => none)
        [⟨str "Kyoko", str "ja-JP", str "u1", false⟩] (str "こんにちは")
        (str "ja-JP") none none none).1 =
      Dispatch.localUtter
        { text := trimStr (str "こんにちは"), lang := str "ja-JP",
          voice := some ⟨str "Kyoko", str "ja-JP", str "u1", false⟩,
          rate := 19/20, pitch := 1, volume := 1 } ∧
    part006Speak false true (str "Hello") (str "en-US") =
      Dispatch.localUtter
        { text := trimStr (str "Hello"), lang := str "en-US", voice := none,
          rate := 1, pitch := 1, volume := 1 } := by
  exact ⟨rfl, rfl⟩

/-- C1 (amended): the routing rule of the claim is realised by `part_003`'s
dispatch (`speakTextAsync`, and `speakText` which delegates to it): for
every non-empty request, Apple-mobile + Japanese resolved language goes to
the cloud client with the fixed voice id `ja-JP-KeitaNeural` and no local
utterance, and every other combination goes to the local Web Speech path
with the utterance's voice selected by `pickVoice` first.  `part_006`
routes its Apple + Japanese case to the cloud with the same fixed id, but
its local branch performs no voice selection (the utterance carries no
voice).  The wired `speakCore` never routes to the cloud: for every
platform and every non-empty request it builds a local utterance, with
voice selection (`getCachedVoice ?? pickVoice`) performed first. -/
theorem c1_amended :
    (∀ (apple hasSynth : Bool) (voices : List Voice) (text : Str)
        (lang : Option Str), trimStr text ≠ [] →
      ((apple && startsW (str "ja") (lowerStr (resolveLang03 text lang))) = true →
        part003Dispatch apple hasSynth voices text lang =
          Dispatch.cloud (trimStr text) (str "ja-JP-KeitaNeural")) ∧
      ((apple && startsW (str "ja") (lowerStr (resolveLang03 text lang))) = false →
        hasSynth = true →
        ∃ u : Utter,
          part003Dispatch apple hasSynth voices text lang = Dispatch.localUtter u ∧
          u.text = trimStr text ∧ u.voice = part003PickVoice voices u.lang)) ∧
    (∀ (hasSynth : Bool) (t2 l2 : Str), trimStr t2 ≠ [] →
      startsW (str "ja") l2 = true →
      part006Speak true hasSynth t2 l2 =
        Dispatch.cloud (trimStr t2) (str "ja-JP-KeitaNeural")) ∧
    (∀ (ios : Bool) (t2 l2 : Str), trimStr t2 ≠ [] →
      (ios && startsW (str "ja") l2) = false →
      ∃ u : Utter, part006Speak ios true t2 l2 = Dispatch.localUtter u ∧
        u.voice = none) ∧
    (∀ (cache : VCache) (voices : List Voice) (text lang : Str)
        (rate? pitch? volume? : Option Rat), trimStr text ≠ [] →
      ∃ u : Utter,
        (speakCoreDispatch true cache voices text lang rate? pitch? volume?).1 =
          Dispatch.localUtter u ∧
        u.text = trimStr text ∧ u.voice = (selectVoice cache voices lang).1) := by
  refine ⟨?_, ?_, ?_, ?_⟩
  · intro apple hasSynth voices text lang hne
    refine ⟨?_, ?_⟩
    · intro h
      simp [part003Dispatch, hne, h]
    · intro h hs
      refine ⟨{ text := trimStr text,
                lang := if startsW (str "ja") (lowerStr (resolveLang03 text lang))
                  then str "ja-JP" else str "en-US",
                voice := part003PickVoice voices
                  (if startsW (str "ja") (lowerStr (resolveLang03 text lang))
                    then str "ja-JP" else str "en-US"),
                rate := 1, pitch := 1, volume := 1 }, ?_, rfl, rfl⟩
      simp [part003Dispatch, hne, h, hs]
  · intro hasSynth t2 l2 hne2 hja
    simp [part006Speak, hne2, hja]
  · intro ios t2 l2 hne2 hnja
    refine ⟨{ text := trimStr t2, lang := l2, voice := none, rate := 1,
              pitch := if startsW (str "ja") l2 then 21/20 else 1,
              volume := 1 }, ?_, rfl⟩
    simp [part006Speak, hne2, hnja]
  · intro cache voices text lang rate? pitch? volume? hne
    refine ⟨{ text := trimStr text, lang := lang,
              voice := (selectVoice cache voices lang).1,
              rate := rate?.getD
                (if startsW (str "ja") (normLang lang) then 19/20
                  else if startsW (str "en") (normLang lang) then 19/20 else 1),
              pitch := pitch?.getD 1, volume := volume?.getD 1 }, ?_, rfl, rfl⟩
    simp [speakCoreDispatch, hne]

/-- C1 witness: the amended theorem exercised on concrete inputs — a
Japanese greeting on Apple-mobile goes to the cloud through `part_003`, an
English word off Apple-mobile goes to its local path with the selected
voice, and the wired `speakCore` produces a local utterance with the
cache-or-pick voice for the same Japanese greeting. -/
theorem c1_amended_witness :
    part003Dispatch true true [] (str "こんにちは") none =
      Dispatch.cloud (trimStr (str "こんにちは")) (str "ja-JP-KeitaNeural") ∧
    (∃ u : Utter,
      part003Dispatch false true [] (str "Hello") none = Dispatch.localUtter u ∧
      u.text = trimStr (str "Hello") ∧ u.voice = part003PickVoice [] u.lang) ∧
    (∃ u : Utter,
      (speakCoreDispatch true (fun _ => none) [] (str "こんにちは") (str "ja-JP")
        none none none).1 = Dispatch.localUtter u ∧
      u.text = trimStr (str "こんにちは") ∧
      u.voice = (selectVoice (fun _ => none) [] (str "ja-JP")).1) :=
  ⟨((c1_amended.1 true true [] (str "こんにちは") none (by decide)).1 (by decide)),
   ((c1_amended.1 false true [] (str "Hello") none (by decide)).2 (by decide) rfl),
   (c1_amended.2.2.2 (fun _ => none) [] (str "こんにちは") (str "ja-JP")
     none none none (by decide))⟩

/- ### C2 -/

/-- C2 counterexample: two rapid calls speak(A) (tag 0) then speak(B)
(tag 1) whose cloud fetches are both in flight before either response
arrives.  After both responses resolve, BOTH playbacks are playing
(`playing = [1, 0]`) — request A is audible alongside B, more than one
playback is active system-wide, and no generation counter exists to
invalidate the superseded request. -/
theorem c2_counterexample :
    (crun cInit
      [CAct.dispatch 0, CAct.dispatch 1, CAct.fetched 0, CAct.fetched 1]).playing
      = [1, 0] ∧
    (crun cInit
      [CAct.dispatch 0, CAct.dispatch 1, CAct.fetched 0, CAct.fetched 1]).started
      = [(1, 1), (0, 0)] := by
  exact ⟨by decide, by decide⟩

/-- C2 (amended): when speak(B) is dispatched after speak(A)'s playback has
begun, B's dispatch pauses A — only B is audible at the end and at most one
playback is active at every step of that run; a late completion callback of
the superseded A does not clear B's active-audio handle (stale suppression
is by audio-element identity, there is no generation counter), but the late
callback is not discarded: it still runs, settling A's promise (and running
URL cleanup on whatever URL is current); and when A's and B's fetches are
simultaneously in flight, both playbacks end up active at once. -/
theorem c2_amended :
    ((crun cInit
        [CAct.dispatch 0, CAct.fetched 0, CAct.dispatch 1, CAct.fetched 1]).playing
        = [1] ∧
      (crun cInit
        [CAct.dispatch 0, CAct.fetched 0, CAct.dispatch 1, CAct.fetched 1]).currentAudio
        = some 1 ∧
      (crun cInit [CAct.dispatch 0]).playing.length ≤ 1 ∧
      (crun cInit [CAct.dispatch 0, CAct.fetched 0]).playing.length ≤ 1 ∧
      (crun cInit
        [CAct.dispatch 0, CAct.fetched 0, CAct.dispatch 1]).playing.length ≤ 1 ∧
      (crun cInit
        [CAct.dispatch 0, CAct.fetched 0, CAct.dispatch 1, CAct.fetched 1]).playing.length
        ≤ 1) ∧
    (∀ (s : CloudState) (a b : Nat), s.currentAudio = some b → a ≠ b →
      (cstep s (CAct.ended a)).currentAudio = some b ∧
      (cstep s (CAct.errored a)).currentAudio = some b ∧
      (cstep s (CAct.playFail a)).currentAudio = some b) ∧
    ((crun cInit [CAct.dispatch 0, CAct.fetched 0, CAct.dispatch 1,
        CAct.fetched 1, CAct.playFail 0]).outcomes = [(0, false)]) ∧
    ((crun cInit [CAct.dispatch 0, CAct.dispatch 1, CAct.fetched 0,
        CAct.fetched 1]).playing.length = 2) := by
  refine ⟨?_, ?_, by decide, by decide⟩
  · exact ⟨by decide, by decide, by decide, by decide, by decide, by decide⟩
  · intro s a b hb hab
    exact ⟨completeOn_currentAudio_of_ne hb hab,
      completeOn_currentAudio_of_ne hb hab,
      completeOn_currentAudio_of_ne hb hab⟩

/-- C2 witness: the stale-suppression clause of the amended theorem applied
after the sequential two-call trace — playback 0's late ended event leaves
playback 1's active handle in place. -/
theorem c2_amended_witness :
    (cstep (crun cInit
      [CAct.dispatch 0, CAct.fetched 0, CAct.dispatch 1, CAct.fetched 1])
      (CAct.ended 0)).currentAudio = some 1 :=
  (c2_amended.2.1
    (crun cInit [CAct.dispatch 0, CAct.fetched 0, CAct.dispatch 1, CAct.fetched 1])
    0 1 (by decide) (by decide)).1

/- ### C9 -/

/-- C9 counterexample: sequential playbacks 0 then 1; after playback 1 (the
newer one) is active with object URL 1, the stale play-failure handler of
the superseded playback 0 fires and revokes URL 1 — the URL belonging to
the newer playback — while playback 1 is still active (`revoked = [0, 1]`
though only URL 0's owner was ever superseded or completed; before this
stale event the log was `[0]`). -/
theorem c9_counterexample :
    (crun cInit [CAct.dispatch 0, CAct.fetched 0, CAct.dispatch 1,
      CAct.fetched 1, CAct.playFail 0]).revoked = [0, 1] ∧
    (crun cInit [CAct.dispatch 0, CAct.fetched 0, CAct.dispatch 1,
      CAct.fetched 1, CAct.playFail 0]).currentAudio = some 1 ∧
    (crun cInit [CAct.dispatch 0, CAct.fetched 0, CAct.dispatch 1,
      CAct.fetched 1, CAct.playFail 0]).playing = [1] ∧
    (crun cInit [CAct.dispatch 0, CAct.fetched 0, CAct.dispatch 1,
      CAct.fetched 1]).revoked = [0] := by
  exact ⟨by decide, by decide, by decide, by decide⟩

/-- C9 (amended): every object URL is revoked at most once in any reachable
state (the claim's never-twice half holds, since cleanup nulls the handle
before the next revocation), and in the undisturbed lifecycle a URL is
revoked exactly once at its playback's completion; but a completion handler
of a superseded playback revokes whatever URL is current at that moment —
it can revoke the newer playback's URL early — and when two fetches are in
flight at once, a URL can be overwritten and never revoked at all (leaked)
even after all playbacks complete. -/
theorem c9_amended :
    (∀ s : CloudState, CReach s → ∀ u : Nat, s.revoked.count u ≤ 1) ∧
    ((crun cInit [CAct.dispatch 0, CAct.fetched 0, CAct.ended 0]).revoked = [0]) ∧
    ((crun cInit [CAct.dispatch 0, CAct.fetched 0, CAct.dispatch 1,
        CAct.fetched 1, CAct.playFail 0]).revoked = [0, 1] ∧
      (crun cInit [CAct.dispatch 0, CAct.fetched 0, CAct.dispatch 1,
        CAct.fetched 1, CAct.playFail 0]).playing = [1]) ∧
    ((crun cInit [CAct.dispatch 0, CAct.dispatch 1, CAct.fetched 0,
        CAct.fetched 1, CAct.ended 1, CAct.ended 0]).revoked = [1] ∧
      (crun cInit [CAct.dispatch 0, CAct.dispatch 1, CAct.fetched 0,
        CAct.fetched 1, CAct.ended 1, CAct.ended 0]).listeners = [] ∧
      (crun cInit [CAct.dispatch 0, CAct.dispatch 1, CAct.fetched 0,
        CAct.fetched 1, CAct.ended 1, CAct.ended 0]).pending = []) := by
  refine ⟨?_, by decide, ⟨by decide, by decide⟩, ⟨by decide, by decide, by decide⟩⟩
  intro s hs u
  exact List.nodup_iff_count_le_one.1 (cinv_reach hs).1 u

/-- C9 witness: the at-most-once clause of the amended theorem applied to a
concrete reachable state. -/
theorem c9_amended_witness :
    (crun cInit [CAct.dispatch 0, CAct.fetched 0, CAct.ended 0]).revoked.count 0 ≤ 1 :=
  c9_amended.1 (crun cInit [CAct.dispatch 0, CAct.fetched 0, CAct.ended 0])
    (CReach.next (CAct.ended 0)
      (CReach.next (CAct.fetched 0)
        (CReach.next (CAct.dispatch 0) CReach.init))) 0

end WordHoard
